import Mathlib

/-!
# consul-simple-template: a shallow embedding of `main.go`

Go strings are modelled as Lean strings, Go's `(value, error)` results as
pairs whose second component is `none` for a nil error, and the Consul
key-value client as an explicit state that records every request it is sent.
The functions of `main.go` keep their names. The standard-library functions
they call (`fmt.Sprintf`, `fmt.Errorf`, `os.Getenv`, `strings.Join`) are written
out after the library; the template engine `text/template` is modelled from the
specification's description of it, on templates that are already split into
literal text and placeholder expressions.
-/

namespace ConsulSimpleTemplate

/-! ## Errors and formatting -/

/-- An error value made inside a library call (the Consul API client, `os`,
`io`). -/
structure LibError where
  msg : String
  deriving DecidableEq

/-- Go `error` values met in `main.go`. `errorf` is a value made by a call of
`fmt.Errorf` in this program, `lib` is a value that a library call returned
and that the program passes on unchanged, `template` is a value the template
engine raises itself. Go errors are
reference values and each call of `fmt.Errorf` makes a fresh one, so a value of
one origin is never identical to a value of the other, whatever its text. -/
inductive GoError where
  | errorf (msg : String)
  | lib (e : LibError)
  | template (msg : String)
  deriving DecidableEq

/-- The method `Error()` of an error value: its message. -/
def GoError.Error : GoError → String
  | .errorf msg => msg
  | .lib e => e.msg
  | .template msg => msg

/-- An operand of a `fmt` formatting call. -/
inductive FmtArg where
  | str (s : String)
  | int (n : Int)
  | err (e : GoError)
  deriving DecidableEq

/-- The text the verbs `%s`, `%d` and `%v` print for an operand of the matching
kind: a string unchanged, an integer in decimal, an error by its message. -/
def FmtArg.render : FmtArg → String
  | .str s => s
  | .int n => toString n
  | .err e => e.Error

/-- The scanning loop of `fmt.Sprintf` over the format's characters: `%%`
prints a percent sign, any other verb consumes the next operand and prints it,
every other character is copied. Only the verbs `main.go` uses (`%s`, `%d`,
`%v`, each with an operand of the matching kind) are covered; a verb without an
operand prints Go's `%!v(MISSING)` marker. Every call in `main.go` passes one
operand for each verb, so the marker Go prints for surplus operands is left
out. -/
def Sprintf.scan : List Char → List FmtArg → List Char
  | [], _ => []
  | [c], _ => if c = '%' then "%!(NOVERB)".toList else [c]
  | c :: v :: rest, args =>
    if c = '%' then
      if v = '%' then '%' :: Sprintf.scan rest args
      else
        match args with
        | a :: args' => a.render.toList ++ Sprintf.scan rest args'
        | [] => "%!".toList ++ v :: "(MISSING)".toList ++ Sprintf.scan rest []
    else c :: Sprintf.scan (v :: rest) args

/-- Go's `fmt.Sprintf`. -/
def Sprintf (format : String) (args : List FmtArg) : String :=
  String.mk (Sprintf.scan format.toList args)

/-- Go's `fmt.Errorf` (no `%w` verb occurs in `main.go`): a new error whose
message is the formatted text. -/
def Errorf (format : String) (args : List FmtArg) : GoError :=
  .errorf (Sprintf format args)

/-! ## Standard-library functions called by the helpers -/

/-- The process environment: the value of each variable that is set. -/
abbrev Environ := String → Option String

/-- Go's `os.Getenv`: the value of the variable, or the empty string when the
variable is not present. -/
def Getenv (environ : Environ) (key : String) : String :=
  match environ key with
  | some v => v
  | none => ""

/-- Go's `strings.Join(elems, sep)`, following the library's code: an empty
slice gives the empty string, a one-element slice gives its element, otherwise
the first element is written to a builder and every further element is written
after a separator. -/
def stringsJoin (elems : List String) (sep : String) : String :=
  match elems with
  | [] => ""
  | [e] => e
  | e :: rest => rest.foldl (fun b s => (b ++ sep) ++ s) e

/-! ## Helper functions of `main.go` -/

/-- Go function `func env(varname string) (string, error)`. -/
def env (environ : Environ) (varname : String) : String × Option GoError :=
  let v := Getenv environ varname
  if v.length = 0 then
    ("", some (Errorf "Environment variable %s not set" [.str varname]))
  else
    (v, none)

/-- Go function `func join(sep string, xs []string) string`. -/
def join (sep : String) (xs : List String) : String :=
  stringsJoin xs sep

/-- Go function `func enquote(s string) string`, registered as the helper `quote`. -/
def enquote (s : String) : String :=
  Sprintf "\"%s\"" [.str s]

/-! ## The Consul key-value client -/

/-- An entry of the store, `api.KVPair`: only the fields the program reads. The
value is a byte slice in Go and the program only ever converts it with
`string(kv.Value)`, which keeps the bytes; it is kept here as the string that
conversion gives. -/
structure KVPair where
  Key : String
  Value : String
  deriving DecidableEq

/-- A read sent to the store. -/
inductive Request where
  | get (key : String)
  | list (pfx : String)
  deriving DecidableEq

/-- The client handle `*api.KV` together with the store behind it. The answer
to a read may depend on every request made before it, so a store that changes
during the run is covered; `requests` records the reads in the order made. An
answer is the pair the library returns: the entry (`none` for a nil pointer) or
the listing (the empty list for a nil slice), and the error. -/
structure KV where
  getResp : List Request → String → Option KVPair × Option LibError
  listResp : List Request → String → List KVPair × Option LibError
  requests : List Request

/-- The call `client.Get(key, nil)`, query metadata dropped. -/
def KV.Get (client : KV) (key : String) : (Option KVPair × Option LibError) × KV :=
  (client.getResp client.requests key,
    { client with requests := client.requests ++ [Request.get key] })

/-- The call `client.List(prefix, nil)`, query metadata dropped. -/
def KV.List (client : KV) (pfx : String) : (List KVPair × Option LibError) × KV :=
  (client.listResp client.requests pfx,
    { client with requests := client.requests ++ [Request.list pfx] })

/-- Go's `make([]string, n, n)`: `n` empty strings. -/
def make (n : Nat) : List String :=
  List.replicate n ""

/-- The loop `for i, x := range xs { result[i] = f(x) }`, entered at index `i`
with the rest `xs` of the slice still to visit. -/
def rangeAssign {α : Type} (f : α → String) : List α → Nat → List String → List String
  | [], _, result => result
  | x :: rest, i, result => rangeAssign f rest (i + 1) (result.set i (f x))

/-- Go function `func get_consul_value(client *api.KV, key string) (string, error)`. -/
def get_consul_value (client : KV) (key : String) : (String × Option GoError) × KV :=
  match client.Get key with
  | ((_, some err), client) => (("", some (.lib err)), client)
  | ((none, none), client) =>
    (("", some (Errorf "Key %s not found in Consul" [.str key])), client)
  | ((some kv, none), client) => ((kv.Value, none), client)

/-- Go function `func get_consul_values(client *api.KV, prefix string) ([]string, error)`;
a nil slice result is `none`. -/
def get_consul_values (client : KV) (pfx : String) :
    (Option (List String) × Option GoError) × KV :=
  match client.List pfx with
  | ((_, some err), client) => ((none, some (.lib err)), client)
  | ((kvs, none), client) =>
    if kvs.length = 0 then
      ((none, some (Errorf "Prefix %s not found in Consul" [.str pfx])), client)
    else
      let result := make kvs.length
      let result := rangeAssign KVPair.Value kvs 0 result
      ((some result, none), client)

/-- Go function `func cv(client *api.KV, prefix string) func(string) (string, error)`. -/
def cv (client : KV) (pfx : String) : String → (String × Option GoError) × KV :=
  fun k => get_consul_value client (pfx ++ k)

/-- Go function `func qcv(client *api.KV, prefix string) func(string) (string, error)`. -/
def qcv (client : KV) (pfx : String) : String → (String × Option GoError) × KV :=
  fun k =>
    match get_consul_value client (pfx ++ k) with
    | ((v, some err), client) => ((v, some err), client)
    | ((v, none), client) => ((enquote v, none), client)

/-- Go function `func cvl(client *api.KV, prefix string) func(string) ([]string, error)`. -/
def cvl (client : KV) (pfx : String) :
    String → (Option (List String) × Option GoError) × KV :=
  fun k => get_consul_values client (pfx ++ k)

/-- Go function `func qcvl(client *api.KV, prefix string) func(string) ([]string, error)`.
On the success path `vals` is the slice `get_consul_values` returned. -/
def qcvl (client : KV) (pfx : String) :
    String → (Option (List String) × Option GoError) × KV :=
  fun k =>
    match get_consul_values client (pfx ++ k) with
    | ((_, some err), client) => ((none, some err), client)
    | ((vals, none), client) =>
      let vals := vals.getD []
      let result := make vals.length
      let result := rangeAssign enquote vals 0 result
      ((some result, none), client)

/-! ## The template engine

`text/template` is a library the program calls; its code is not part of the
repository. The definitions of this section are written from the description
of the engine in the specification. A template is taken after lexing, as the
sequence of its literal stretches and placeholder expressions. -/

/-- Modelled from the spec: a value a placeholder expression evaluates to, a
string or an ordered sequence of strings (the template engine's values are
missing from the source). -/
inductive Value where
  | str (s : String)
  | strs (xs : List String)
  deriving DecidableEq

/-- Modelled from the spec: a placeholder expression of the template engine,
missing from the source: a string constant, a reference to a field of the
top-level data object, or the invocation of a named helper with one or two
argument expressions. -/
inductive Expr where
  | lit (s : String)
  | field (name : String)
  | call1 (fn : String) (a : Expr)
  | call2 (fn : String) (a b : Expr)
  deriving DecidableEq

/-- Modelled from the spec: a piece of a template (the template engine's parse
tree is missing from the source): literal text or a placeholder expression. -/
inductive Node where
  | text (s : String)
  | action (e : Expr)
  deriving DecidableEq

/-- Modelled from the spec: a template is literal text interleaved with
placeholder expressions (the template engine's parse tree is missing from the
source). -/
abbrev Template := List Node

/-- Modelled from the spec: a helper as the template engine (missing from the
source) receives it in `template.FuncMap`, a Go function value, by signature:
`func(string) string`, `func(string, []string) string`,
`func(string) (string, error)`, and the two shapes of closure over the client
handle, `func(string) (string, error)` and `func(string) ([]string, error)`. -/
inductive Callable where
  | strToStr (f : String → String)
  | strStrsToStr (f : String → List String → String)
  | strToStrErr (f : String → String × Option GoError)
  | kvStrToStrErr (f : KV → String → (String × Option GoError) × KV)
  | kvStrToStrsErr (f : KV → String → (Option (List String) × Option GoError) × KV)

/-- Modelled from the spec: something the template engine (missing from the
source) does that can be observed from outside: it writes text to the
destination, or it invokes a helper, which returns a nil error (`none`) or an
error. -/
inductive Event where
  | wrote (s : String)
  | invoked (fn : String) (err : Option GoError)
  deriving DecidableEq

/-- Modelled from the spec: the state of one execution by the template engine
(missing from the source): the client handle the helpers share, the text on the
destination `wr`, and the record of what the engine has done so far, in
order. -/
structure ExecState where
  client : KV
  wr : String
  events : List Event

/-- Modelled from the spec: the template engine's call of a registered function
(missing from the source). The arguments must fit the function's signature,
otherwise the function is not called (`none`). A second result that is a
non-nil error makes the call fail with that error. -/
def Callable.call : Callable → List Value → KV → Option (Except GoError Value × KV)
  | .strToStr f, [.str s], client => some (.ok (.str (f s)), client)
  | .strStrsToStr f, [.str s, .strs xs], client => some (.ok (.str (f s xs)), client)
  | .strToStrErr f, [.str s], client =>
    match f s with
    | (_, some err) => some (.error err, client)
    | (v, none) => some (.ok (.str v), client)
  | .kvStrToStrErr f, [.str s], client =>
    match f client s with
    | ((_, some err), client) => some (.error err, client)
    | ((v, none), client) => some (.ok (.str v), client)
  | .kvStrToStrsErr f, [.str s], client =>
    match f client s with
    | ((_, some err), client) => some (.error err, client)
    | ((vs, none), client) => some (.ok (.strs (vs.getD [])), client)
  | _, _, _ => none

/-- Modelled from the spec: the template engine's invocation of the helper
named `fn` (missing from the source). The helper is looked up in the function
map and called; the invocation is recorded with the error it returned. -/
def invoke (funcs : List (String × Callable)) (fn : String) (args : List Value)
    (st : ExecState) : Except GoError Value × ExecState :=
  match funcs.lookup fn with
  | none => (.error (.template ("function " ++ fn ++ " not defined")), st)
  | some f =>
    match f.call args st.client with
    | none => (.error (.template ("wrong number or type of arguments for " ++ fn)), st)
    | some (.error err, client) =>
      (.error err,
        { st with client := client, events := st.events ++ [.invoked fn (some err)] })
    | some (.ok v, client) =>
      (.ok v, { st with client := client, events := st.events ++ [.invoked fn none] })

/-- Modelled from the spec: evaluation of a placeholder expression by the
template engine (missing from the source), in the strict mode the program sets
with `Option("missingkey=error")`. Arguments are evaluated left to right before
the helper is invoked; the first failure ends the evaluation. The data object
is the empty map the program passes, so every reference to a field of it is a
missing key and fails. -/
def evalExpr (funcs : List (String × Callable)) :
    Expr → ExecState → Except GoError Value × ExecState
  | .lit s, st => (.ok (.str s), st)
  | .field name, st => (.error (.template ("map has no entry for key " ++ enquote name)), st)
  | .call1 fn a, st =>
    match evalExpr funcs a st with
    | (.error err, st) => (.error err, st)
    | (.ok va, st) => invoke funcs fn [va] st
  | .call2 fn a b, st =>
    match evalExpr funcs a st with
    | (.error err, st) => (.error err, st)
    | (.ok va, st) =>
      match evalExpr funcs b st with
      | (.error err, st) => (.error err, st)
      | (.ok vb, st) => invoke funcs fn [va, vb] st

/-- Modelled from the spec: the text the template engine (missing from the
source) writes for a value: a string as it is, a sequence as Go prints a slice
of strings. -/
def Value.print : Value → String
  | .str s => s
  | .strs xs => "[" ++ " ".intercalate xs ++ "]"

/-- Modelled from the spec: one step of the template engine (missing from the
source). Literal text is written to the destination at once; a placeholder is
evaluated and its value written; a failed evaluation writes nothing. -/
def execNode (funcs : List (String × Callable)) :
    Node → ExecState → Option GoError × ExecState
  | .text s, st => (none, { st with wr := st.wr ++ s, events := st.events ++ [.wrote s] })
  | .action e, st =>
    match evalExpr funcs e st with
    | (.error err, st) => (some err, st)
    | (.ok v, st) =>
      (none, { st with wr := st.wr ++ v.print, events := st.events ++ [.wrote v.print] })

/-- Modelled from the spec: `(*Template).Execute` of the template engine
(missing from the source). The pieces are executed in order, each writing
straight to the destination; the first error ends the execution and is
returned, and what was written stays written. The library adds the template's
name and the position to the message of the error it returns; the error is
kept here as the helper returned it. -/
def Execute (funcs : List (String × Callable)) :
    Template → ExecState → Option GoError × ExecState
  | [], st => (none, st)
  | n :: rest, st =>
    match execNode funcs n st with
    | (some err, st) => (some err, st)
    | (none, st) => Execute funcs rest st

/-- Modelled from the spec: the helper names an expression refers to, in the
order they occur (the template engine's parser is missing from the source). -/
def Expr.helpers : Expr → List String
  | .lit _ => []
  | .field _ => []
  | .call1 fn a => fn :: a.helpers
  | .call2 fn a b => fn :: (a.helpers ++ b.helpers)

/-- Modelled from the spec: the helper names a piece of a template refers to
(the template engine's parser is missing from the source). -/
def Node.helpers : Node → List String
  | .text _ => []
  | .action e => e.helpers

/-- Modelled from the spec: `(*Template).Parse` of the template engine (missing
from the source), on a lexed template: it fails on the first reference to a
helper that is not in the function map. -/
def Parse (funcs : List (String × Callable)) (content : Template) :
    Except GoError Template :=
  match (content.flatMap Node.helpers).find? (fun fn => (funcs.lookup fn).isNone) with
  | some fn => .error (.template ("function " ++ fn ++ " not defined"))
  | none => .ok content

/-! ## The program -/

/-- The map `funcMap` built in `process_template`; the four store helpers are
bound to the prefix and receive the client handle when they are called. -/
def funcMap (environ : Environ) (pfx : String) : List (String × Callable) :=
  [ ("join", .strStrsToStr join),
    ("quote", .strToStr enquote),
    ("env", .strToStrErr (env environ)),
    ("cv", .kvStrToStrErr (fun kv_client => cv kv_client pfx)),
    ("qcv", .kvStrToStrErr (fun kv_client => qcv kv_client pfx)),
    ("cvl", .kvStrToStrsErr (fun kv_client => cvl kv_client pfx)),
    ("qcvl", .kvStrToStrsErr (fun kv_client => qcvl kv_client pfx)) ]

/-- Go function `func process_template(template_content *string, prefix *string) error`.
`newClient` is the outcome of `api.NewClient(api.DefaultConfig())` and `stdout`
the text on standard output when the function is entered; the result is the
error returned together with the client handle, the text on standard output and
the record of the execution when the function returns. -/
def process_template (newClient : KV × Option LibError) (environ : Environ)
    (template_content : Template) (pfx : String) (stdout : String) :
    Option GoError × ExecState :=
  let st : ExecState := { client := newClient.1, wr := stdout, events := [] }
  match newClient.2 with
  | some err =>
    (some (Errorf "Constructing Consul client with default config: %v" [.err (.lib err)]), st)
  | none =>
    match Parse (funcMap environ pfx) template_content with
    | .error err => (some (Errorf "Error parsing template: %v" [.err err]), st)
    | .ok tmpl => Execute (funcMap environ pfx) tmpl st

/-- What opening and reading a file gives: a failure of `os.Open`, a failure of
`ioutil.ReadAll`, or the content, a template. -/
inductive FileOutcome where
  | openFails (err : LibError)
  | readFails (err : LibError)
  | data (content : Template)

/-- Go function `func slurp(path string) (*string, error)`. -/
def slurp (files : String → FileOutcome) (path : String) : Option Template × Option GoError :=
  match files path with
  | .openFails err => (none, some (Errorf "Open %s: %v" [.str path, .err (.lib err)]))
  | .readFails err => (none, some (Errorf "Read %s: %v" [.str path, .err (.lib err)]))
  | .data content => (some content, none)

/-- Go function `func main()`, after `flag.Parse()`: `args` are the positional
arguments and `pfx` the value of the `-prefix` flag. The result is the message
handed to `log.Fatal` or `log.Fatalf` when the run ends that way (`none` for a
normal return), together with the text on standard output at the end of the
run; standard output starts empty. `slurp` never returns a nil pointer with a
nil error; that case would end the run in a nil dereference and is kept only to
make the function total. -/
def main (files : String → FileOutcome) (newClient : KV × Option LibError)
    (environ : Environ) (pfx : String) (args : List String) : Option String × String :=
  match args with
  | [template_path] =>
    match slurp files template_path with
    | (_, some err) => (some err.Error, "")
    | (none, none) => (some "nil pointer dereference", "")
    | (some template, none) =>
      match process_template newClient environ template pfx "" with
      | (some err, st) =>
        (some (Sprintf "Error processing template %s: %v" [.str template_path, .err err]),
          st.wr)
      | (none, st) => (none, st.wr)
  | _ => (some (Sprintf "Got %d arguments, expected 1" [.int args.length]), "")

/-! ## Specification-side definitions -/

/-- The elements of `xs` in order with `sep` between adjacent elements, as the
specification words it. -/
def sepConcat (sep : String) : List String → String
  | [] => ""
  | [x] => x
  | x :: y :: rest => x ++ sep ++ sepConcat sep (y :: rest)

/-- The text a record of events says was written, in order. -/
def written : List Event → String
  | [] => ""
  | .wrote s :: rest => s ++ written rest
  | .invoked _ _ :: rest => written rest

/-- The event is the invocation of a helper that returned an error. -/
def Event.isFailure : Event → Bool
  | .invoked _ (some _) => true
  | _ => false

/-- The error of a result of the engine, `none` for a value. -/
def errOf : Except GoError Value → Option GoError
  | .error err => some err
  | .ok _ => none

/-- The shape of the record a stretch of execution adds when it ends with the
error `r`: no helper in it returned an error, or the stretch ended with an
error and the one helper that returned an error returned that error and is the
last event of the stretch. -/
def failsLast (r : Option GoError) (new : List Event) : Prop :=
  (∀ ev ∈ new, ev.isFailure = false) ∨
  (∃ err clean fn, r = some err ∧ new = clean ++ [Event.invoked fn (some err)] ∧
    ∀ ev ∈ clean, ev.isFailure = false)

/-- A stretch of execution from `st` to `st1` ending with the error `r` that
writes nothing: it adds to the record only invocations, shaped as `failsLast`
says, and leaves the destination as it was. -/
def evaluates (st st1 : ExecState) (r : Option GoError) : Prop :=
  ∃ new, st1.events = st.events ++ new ∧ st1.wr = st.wr ∧ written new = "" ∧
    failsLast r new

/-- A stretch of execution from `st` to `st1` ending with the error `r`: it
adds events to the record, shaped as `failsLast` says, and the destination
gains the text the added events say was written. -/
def executes (st st1 : ExecState) (r : Option GoError) : Prop :=
  ∃ new, st1.events = st.events ++ new ∧ st1.wr = st.wr ++ written new ∧
    failsLast r new

/-- The literal text of a template: its literal stretches in order. For a
template without placeholder expressions this is the whole text of the
template. -/
def literalText : Template → String
  | [] => ""
  | .text s :: rest => s ++ literalText rest
  | .action _ :: rest => literalText rest

/-- The template has no placeholder expression: it is literal text only. -/
def literalOnly : Template → Bool
  | [] => true
  | .text _ :: rest => literalOnly rest
  | .action _ :: _ => false

/-- A store for examples: it holds the given entries, never fails, and does not
change. A key is looked up by equality and a listing gives, in the order held,
the entries whose key starts with the given text. -/
def storeOf (entries : List KVPair) : KV where
  getResp := fun _ key => (entries.find? (fun kv => kv.Key = key), none)
  listResp := fun _ pfx =>
    (entries.filter (fun kv => pfx.toList.isPrefixOf kv.Key.toList), none)
  requests := []

/-- The entries `p ++ "list/x" = "1"` and `p ++ "list/y" = "2"` of the
specification's example, with `p = "app/"`, and an entry `"app/a" = "1"`. -/
def exampleStore : KV :=
  storeOf [⟨"app/a", "1"⟩, ⟨"app/list/x", "1"⟩, ⟨"app/list/y", "2"⟩]

/-- An environment for examples: `FOO=bar` and nothing else. -/
def exampleEnviron : Environ :=
  fun k => if k = "FOO" then some "bar" else none

/-- The template `a{{cv "missing"}}b{{env "FOO"}}`. -/
def failingTemplate : Template :=
  [.text "a", .action (.call1 "cv" (.lit "missing")), .text "b",
    .action (.call1 "env" (.lit "FOO"))]

/-- A file system for examples: every path holds the template
`a{{cv "missing"}}b{{env "FOO"}}`. -/
def exampleFiles : String → FileOutcome :=
  fun _ => .data failingTemplate

/-! ## Facts about the library functions -/

theorem string_length_zero_iff (v : String) : v.length = 0 ↔ v = "" := by
  constructor
  · intro h
    apply String.ext
    exact List.length_eq_zero.mp h
  · rintro rfl
    rfl

theorem stringsJoin_foldl (sep : String) (rest : List String) (b y : String) :
    (y :: rest).foldl (fun b s => (b ++ sep) ++ s) b = b ++ sep ++ sepConcat sep (y :: rest) := by
  induction rest generalizing b y with
  | nil => simp [sepConcat]
  | cons z rest ih =>
    rw [List.foldl_cons, ih]
    simp [sepConcat, String.append_assoc]

theorem stringsJoin_eq (sep : String) (xs : List String) :
    stringsJoin xs sep = sepConcat sep xs := by
  match xs with
  | [] => rfl
  | [x] => rfl
  | x :: y :: rest =>
    simp only [stringsJoin]
    rw [stringsJoin_foldl]
    simp [sepConcat, String.append_assoc]

theorem intercalate_go_eq (sep : String) (rest : List String) (acc y : String) :
    String.intercalate.go acc sep (y :: rest) = acc ++ sep ++ sepConcat sep (y :: rest) := by
  induction rest generalizing acc y with
  | nil => simp [String.intercalate.go, sepConcat]
  | cons z rest ih =>
    rw [String.intercalate.go, ih]
    simp [sepConcat, String.append_assoc]

theorem sepConcat_eq_intercalate (sep : String) (xs : List String) :
    sepConcat sep xs = sep.intercalate xs := by
  match xs with
  | [] => rfl
  | [x] => simp [sepConcat, String.intercalate, String.intercalate.go]
  | x :: y :: rest =>
    rw [String.intercalate, intercalate_go_eq]
    simp [sepConcat, String.append_assoc]

theorem enquote_toList (s : String) : (enquote s).toList = '"' :: (s.toList ++ ['"']) := by
  simp [enquote, Sprintf, Sprintf.scan, FmtArg.render]

/-! ## The helpers `env`, `join` and `quote` -/

/-- C5: `env n` fails exactly when `n` is unset or set to the empty string, and
otherwise succeeds with exactly the value of the variable. -/
theorem env_fails_iff_unset_or_empty (environ : Environ) (n : String) :
    ((env environ n).2 ≠ none ↔ (environ n = none ∨ environ n = some "")) ∧
    (∀ v, environ n = some v → v ≠ "" → env environ n = (v, none)) ∧
    env exampleEnviron "FOO" = ("bar", none) ∧
    (env (fun _ => none) "FOO").2 =
      some (.errorf "Environment variable FOO not set") ∧
    (env (fun _ => some "") "FOO").2 =
      some (.errorf "Environment variable FOO not set") := by
  refine ⟨?_, ?_, by decide, by decide, by decide⟩
  · unfold env Getenv
    cases h : environ n with
    | none => simp
    | some v =>
      by_cases hv : v = ""
      · subst hv; simp
      · have : v.length ≠ 0 := fun h0 => hv ((string_length_zero_iff v).mp h0)
        simp [this, hv]
  · intro v hv hne
    have : v.length ≠ 0 := fun h0 => hne ((string_length_zero_iff v).mp h0)
    simp [env, Getenv, hv, this]

/-- C6: `join sep xs` is the elements of `xs` in order with `sep` between
adjacent elements: the empty string for no element, the element itself for
one. -/
theorem join_eq_sepConcat (sep : String) (xs : List String) :
    join sep xs = sepConcat sep xs ∧
    join sep xs = sep.intercalate xs ∧
    join sep [] = "" ∧
    (∀ x, join sep [x] = x) ∧
    (∀ x y rest, join sep (x :: y :: rest) = x ++ sep ++ join sep (y :: rest)) ∧
    join "," ["a", "b", "c"] = "a,b,c" := by
  refine ⟨stringsJoin_eq sep xs, ?_, rfl, fun _ => rfl, ?_, by decide⟩
  · rw [join, stringsJoin_eq, sepConcat_eq_intercalate]
  · intro x y rest
    simp only [join, stringsJoin_eq, sepConcat]

/-- C7: `quote s` is a double quote, then `s` unchanged, then a double quote;
it is two characters longer than `s` and `s` is what is left when its first
and last characters are removed. -/
theorem enquote_wraps_in_quotes (s : String) :
    enquote s = "\"" ++ s ++ "\"" ∧
    (enquote s).toList = '"' :: (s.toList ++ ['"']) ∧
    (enquote s).length = s.length + 2 ∧
    (enquote s).toList.tail.dropLast = s.toList ∧
    enquote "x" = "\"x\"" ∧
    enquote "a\"b" = "\"a\"b\"" := by
  have h := enquote_toList s
  refine ⟨?_, h, ?_, ?_, by decide, by decide⟩
  · apply String.ext
    simpa using h
  · have hl : (enquote s).length = (enquote s).toList.length := rfl
    have hs : s.length = s.toList.length := rfl
    rw [hl, h, hs, List.length_cons, List.length_append]
    rfl
  · rw [h, List.tail_cons, List.dropLast_concat]

/-! ## The store helpers -/

theorem Errorf_key_not_found (key : String) :
    Errorf "Key %s not found in Consul" [.str key] =
      .errorf ("Key " ++ key ++ " not found in Consul") := by
  simp only [Errorf, GoError.errorf.injEq]
  apply String.ext
  simp [Sprintf, Sprintf.scan, FmtArg.render]

theorem Errorf_prefix_not_found (pfx : String) :
    Errorf "Prefix %s not found in Consul" [.str pfx] =
      .errorf ("Prefix " ++ pfx ++ " not found in Consul") := by
  simp only [Errorf, GoError.errorf.injEq]
  apply String.ext
  simp [Sprintf, Sprintf.scan, FmtArg.render]

theorem rangeAssign_append {α : Type} (f : α → String) (xs : List α) (done : List String) :
    rangeAssign f xs done.length (done ++ make xs.length) = done ++ xs.map f := by
  induction xs generalizing done with
  | nil => simp [rangeAssign, make]
  | cons x rest ih =>
    have h := ih (done ++ [f x])
    simp only [List.length_append, List.length_singleton, List.append_assoc,
      List.singleton_append] at h
    simp only [rangeAssign, make, List.length_cons, List.replicate_succ, List.map_cons]
    rw [List.set_append_right _ _ (Nat.le_refl _)]
    simpa [make] using h

theorem rangeAssign_make {α : Type} (f : α → String) (xs : List α) :
    rangeAssign f xs 0 (make xs.length) = xs.map f := by
  simpa using rangeAssign_append f xs []

theorem get_consul_value_client (client : KV) (key : String) :
    (get_consul_value client key).2 =
      { client with requests := client.requests ++ [Request.get key] } := by
  simp only [get_consul_value, KV.Get]
  split <;> simp_all

theorem get_consul_values_client (client : KV) (pfx : String) :
    (get_consul_values client pfx).2 =
      { client with requests := client.requests ++ [Request.list pfx] } := by
  simp only [get_consul_values, KV.List]
  split
  · simp_all
  · split <;> simp_all

theorem get_consul_value_result (client : KV) (key : String) :
    (get_consul_value client key).1 =
      match client.getResp client.requests key with
      | (_, some err) => ("", some (.lib err))
      | (none, none) => ("", some (.errorf ("Key " ++ key ++ " not found in Consul")))
      | (some kv, none) => (kv.Value, none) := by
  simp only [get_consul_value, KV.Get, Errorf_key_not_found]
  rcases h : client.getResp client.requests key with ⟨kv, err⟩
  cases err <;> cases kv <;> simp

theorem get_consul_values_result (client : KV) (pfx : String) :
    (get_consul_values client pfx).1 =
      match client.listResp client.requests pfx with
      | (_, some err) => (none, some (.lib err))
      | (kvs, none) =>
        if kvs.length = 0 then
          (none, some (.errorf ("Prefix " ++ pfx ++ " not found in Consul")))
        else (some (kvs.map KVPair.Value), none) := by
  simp only [get_consul_values, KV.List, Errorf_prefix_not_found, rangeAssign_make]
  rcases h : client.listResp client.requests pfx with ⟨kvs, err⟩
  cases err
  · by_cases h0 : kvs.length = 0 <;> simp [h0]
  · simp

theorem get_consul_values_success (client : KV) (pfx : String) :
    (get_consul_values client pfx).1.2 = none →
      ∃ vals, (get_consul_values client pfx).1.1 = some vals := by
  rw [get_consul_values_result]
  rcases client.listResp client.requests pfx with ⟨kvs, err⟩
  cases err with
  | some e => simp
  | none => by_cases h0 : kvs.length = 0 <;> simp [h0]

theorem get_consul_value_failure (client : KV) (key : String) :
    ∀ e, (get_consul_value client key).1.2 = some e →
      (get_consul_value client key).1.1 = "" := by
  rw [get_consul_value_result]
  rcases client.getResp client.requests key with ⟨kv, err⟩
  cases err <;> cases kv <;> simp

/-- C1: `cv` built with prefix `p` and applied to `k` sends the store one
read, a lookup of the key `p ++ k`; it returns the value of the entry when there
is one, fails with the not-found error when the read succeeds without an entry,
and fails with the error of the read, which is not the not-found error, when
the read fails. -/
theorem cv_single_lookup (client : KV) (p k : String) :
    (cv client p k).2 =
      { client with requests := client.requests ++ [Request.get (p ++ k)] } ∧
    (∀ kv, client.getResp client.requests (p ++ k) = (some kv, none) →
      (cv client p k).1 = (kv.Value, none)) ∧
    (client.getResp client.requests (p ++ k) = (none, none) →
      (cv client p k).1 =
        ("", some (.errorf ("Key " ++ (p ++ k) ++ " not found in Consul")))) ∧
    (∀ kv e, client.getResp client.requests (p ++ k) = (kv, some e) →
      (cv client p k).1 = ("", some (.lib e)) ∧
      GoError.lib e ≠ .errorf ("Key " ++ (p ++ k) ++ " not found in Consul")) ∧
    (cv exampleStore "app/" "a").1 = ("1", none) ∧
    (cv exampleStore "app/" "a").2.requests = [Request.get "app/a"] := by
  refine ⟨get_consul_value_client client (p ++ k), ?_, ?_, ?_, by decide, by decide⟩
  · intro kv h
    simp [cv, get_consul_value_result, h]
  · intro h
    simp [cv, get_consul_value_result, h]
  · intro kv e h
    simp [cv, get_consul_value_result, h]

/-- C2: `cvl` built with prefix `p` and applied to `k` sends the store one
read, a listing with the prefix `p ++ k`; when the read succeeds it fails with
the not-found error exactly when the listing is empty, and otherwise returns
the values of the listed entries, one for each entry and in the order of the
listing, so a successful result is not empty and is as long as the listing. -/
theorem cvl_values_in_listing_order (client : KV) (p k : String) :
    (cvl client p k).2 =
      { client with requests := client.requests ++ [Request.list (p ++ k)] } ∧
    (∀ kvs, client.listResp client.requests (p ++ k) = (kvs, none) →
      ((cvl client p k).1.2 ≠ none ↔ kvs.length = 0) ∧
      (kvs.length = 0 → (cvl client p k).1 =
        (none, some (.errorf ("Prefix " ++ (p ++ k) ++ " not found in Consul")))) ∧
      (kvs.length ≠ 0 → (cvl client p k).1 = (some (kvs.map KVPair.Value), none))) ∧
    ((cvl client p k).1.2 = none →
      ∃ vals, (cvl client p k).1.1 = some vals ∧ vals ≠ [] ∧
        vals = (client.listResp client.requests (p ++ k)).1.map KVPair.Value ∧
        vals.length = (client.listResp client.requests (p ++ k)).1.length) ∧
    (cvl exampleStore "app/" "list/").1 = (some ["1", "2"], none) ∧
    (cvl exampleStore "app/" "list/").2.requests = [Request.list "app/list/"] := by
  refine ⟨get_consul_values_client client (p ++ k), ?_, ?_, by decide, by decide⟩
  · intro kvs h
    by_cases h0 : kvs.length = 0 <;> simp [cvl, get_consul_values_result, h, h0]
  · rcases h : client.listResp client.requests (p ++ k) with ⟨kvs, err⟩
    cases err with
    | some e => simp [cvl, get_consul_values_result, h]
    | none =>
      by_cases h0 : kvs.length = 0
      · simp [cvl, get_consul_values_result, h, h0]
      · have hne : kvs ≠ [] := fun hn => h0 (by simp [hn])
        simp [cvl, get_consul_values_result, h, h0, hne]

/-- C3: `qcvl` sends the same read as `cvl` and returns the same error; when
`cvl` succeeds with a list, `qcvl` succeeds with a list of the same length
whose element at each index is `quote` of the element of the `cvl` list at
that index; when `cvl` fails, `qcvl` fails with the same error and a nil
list. -/
theorem qcvl_quotes_each_element (client : KV) (p k : String) :
    (qcvl client p k).2 = (cvl client p k).2 ∧
    (qcvl client p k).1.2 = (cvl client p k).1.2 ∧
    ((cvl client p k).1.2 = none → ∃ vals, (cvl client p k).1.1 = some vals) ∧
    (∀ vals, (cvl client p k).1 = (some vals, none) →
      ∃ qs, (qcvl client p k).1 = (some qs, none) ∧
        qs.length = vals.length ∧
        (∀ i : Nat, qs[i]? = (vals[i]?).map enquote) ∧
        qs = vals.map enquote) ∧
    (∀ e, (cvl client p k).1.2 = some e → (qcvl client p k).1 = (none, some e)) ∧
    (qcvl exampleStore "app/" "list/").1 = (some ["\"1\"", "\"2\""], none) := by
  have hsome := get_consul_values_success client (p ++ k)
  simp only [qcvl, cvl]
  rcases hr : get_consul_values client (p ++ k) with ⟨⟨vals, err⟩, c⟩
  rw [hr] at hsome
  refine ⟨?_, ?_, ?_, ?_, ?_, by decide⟩
  · cases err <;> rfl
  · cases err <;> rfl
  · exact hsome
  · intro vs h
    simp only [Prod.mk.injEq] at h
    obtain ⟨hv, he⟩ := h
    subst hv he
    refine ⟨vs.map enquote, ?_, by simp, fun i => by simp, rfl⟩
    simp [rangeAssign_make]
  · intro e he
    simp only at he
    subst he
    rfl

/-- C4: `qcv` sends the same read as `cv`; when `cv` succeeds with a value,
`qcv` succeeds with `quote` of that value; when `cv` fails, `qcv` fails with
the same error and returns the empty string, not a quoted empty string. -/
theorem qcv_is_quote_of_cv (client : KV) (p k : String) :
    (qcv client p k).2 = (cv client p k).2 ∧
    (qcv client p k).1.2 = (cv client p k).1.2 ∧
    (∀ v, (cv client p k).1 = (v, none) → (qcv client p k).1 = (enquote v, none)) ∧
    (∀ v e, (cv client p k).1 = (v, some e) →
      (qcv client p k).1 = ("", some e) ∧ (qcv client p k).1.1 ≠ enquote "") ∧
    (qcv exampleStore "app/" "a").1 = ("\"1\"", none) ∧
    (qcv exampleStore "app/" "missing").1 =
      ("", some (.errorf "Key app/missing not found in Consul")) := by
  have hfail := get_consul_value_failure client (p ++ k)
  simp only [qcv, cv]
  rcases hr : get_consul_value client (p ++ k) with ⟨⟨v, err⟩, c⟩
  rw [hr] at hfail
  refine ⟨?_, ?_, ?_, ?_, by decide, by decide⟩
  · cases err <;> rfl
  · cases err <;> rfl
  · intro w h
    simp only [Prod.mk.injEq] at h
    obtain ⟨hv, he⟩ := h
    subst hv he
    rfl
  · intro w e h
    simp only [Prod.mk.injEq] at h
    obtain ⟨hv, he⟩ := h
    subst hv he
    have hv : v = "" := hfail e rfl
    subst hv
    have hq : ("" : String) ≠ enquote "" := by decide
    exact ⟨rfl, hq⟩

/-! ## Template execution -/

theorem written_append (a b : List Event) : written (a ++ b) = written a ++ written b := by
  induction a with
  | nil => simp [written]
  | cons ev rest ih =>
    cases ev with
    | wrote s => simp [written, ih, String.append_assoc]
    | invoked fn err => simp [written, ih]

theorem failsLast_append (r : Option GoError) (new1 new2 : List Event)
    (h1 : ∀ ev ∈ new1, ev.isFailure = false) (h2 : failsLast r new2) :
    failsLast r (new1 ++ new2) := by
  rcases h2 with h2 | ⟨err, clean, fn, hr, hnew, hclean⟩
  · left
    intro ev hev
    rcases List.mem_append.mp hev with h | h
    · exact h1 ev h
    · exact h2 ev h
  · right
    refine ⟨err, new1 ++ clean, fn, hr, by rw [hnew, List.append_assoc], ?_⟩
    intro ev hev
    rcases List.mem_append.mp hev with h | h
    · exact h1 ev h
    · exact hclean ev h

theorem failsLast_none (new : List Event) (h : failsLast none new) :
    ∀ ev ∈ new, ev.isFailure = false := by
  rcases h with h | ⟨err, clean, fn, hr, _, _⟩
  · exact h
  · cases hr

theorem failsLast_split (r : Option GoError) (new before after : List Event) (fn : String)
    (err : GoError) (h : failsLast r new)
    (hnew : new = before ++ Event.invoked fn (some err) :: after) :
    after = [] ∧ r = some err ∧ ∀ ev ∈ before, ev.isFailure = false := by
  rcases h with h | ⟨err2, clean, fn2, hr, hnew2, hclean⟩
  · have hmem : Event.invoked fn (some err) ∈ new := by rw [hnew]; simp
    have := h _ hmem
    simp [Event.isFailure] at this
  · rw [hnew2] at hnew
    rcases List.append_eq_append_iff.mp hnew with ⟨a, hb, ha⟩ | ⟨c, hc, hb⟩
    · cases a with
      | nil =>
        simp only [List.nil_append, List.cons.injEq, Event.invoked.injEq, Option.some.injEq] at ha
        obtain ⟨⟨-, herr⟩, hafter⟩ := ha
        refine ⟨hafter.symm, by rw [hr, herr], ?_⟩
        intro ev hev
        rw [hb] at hev
        simp only [List.append_nil] at hev
        exact hclean ev hev
      | cons x rest => simp at ha
    · cases c with
      | nil =>
        simp only [List.nil_append, List.cons.injEq, Event.invoked.injEq, Option.some.injEq] at hb
        obtain ⟨⟨-, herr⟩, hafter⟩ := hb
        refine ⟨hafter, by rw [hr, herr], ?_⟩
        intro ev hev
        rw [List.append_nil] at hc
        rw [← hc] at hev
        exact hclean ev hev
      | cons x rest =>
        simp only [List.cons_append, List.cons.injEq] at hb
        have hmem : Event.invoked fn (some err) ∈ clean := by rw [hc, hb.1]; simp
        have := hclean _ hmem
        simp [Event.isFailure] at this

theorem evaluates_refl (st : ExecState) (r : Option GoError) : evaluates st st r :=
  ⟨[], by simp, rfl, rfl, Or.inl (by simp)⟩

theorem evaluates_trans (st st1 st2 : ExecState) (r : Option GoError)
    (h1 : evaluates st st1 none) (h2 : evaluates st1 st2 r) : evaluates st st2 r := by
  obtain ⟨n1, he1, hw1, hs1, hf1⟩ := h1
  obtain ⟨n2, he2, hw2, hs2, hf2⟩ := h2
  refine ⟨n1 ++ n2, by rw [he2, he1, List.append_assoc], by rw [hw2, hw1], ?_, ?_⟩
  · rw [written_append, hs1, hs2]; rfl
  · exact failsLast_append r n1 n2 (failsLast_none n1 hf1) hf2

theorem executes_trans (st st1 st2 : ExecState) (r : Option GoError)
    (h1 : executes st st1 none) (h2 : executes st1 st2 r) : executes st st2 r := by
  obtain ⟨n1, he1, hw1, hf1⟩ := h1
  obtain ⟨n2, he2, hw2, hf2⟩ := h2
  refine ⟨n1 ++ n2, by rw [he2, he1, List.append_assoc], ?_, ?_⟩
  · rw [hw2, hw1, written_append, String.append_assoc]
  · exact failsLast_append r n1 n2 (failsLast_none n1 hf1) hf2

theorem invoke_evaluates (funcs : List (String × Callable)) (fn : String)
    (args : List Value) (st : ExecState) :
    evaluates st (invoke funcs fn args st).2 (errOf (invoke funcs fn args st).1) := by
  unfold invoke
  split
  · exact evaluates_refl _ _
  · split
    · exact evaluates_refl _ _
    · rename_i err client _
      exact ⟨[.invoked fn (some err)], rfl, rfl, rfl,
        Or.inr ⟨err, [], fn, rfl, rfl, by simp⟩⟩
    · exact ⟨[.invoked fn none], rfl, rfl, rfl, Or.inl (by simp [Event.isFailure])⟩

theorem evalExpr_evaluates (funcs : List (String × Callable)) (e : Expr) :
    ∀ st, evaluates st (evalExpr funcs e st).2 (errOf (evalExpr funcs e st).1) := by
  induction e with
  | lit s => intro st; exact evaluates_refl _ _
  | field name => intro st; exact evaluates_refl _ _
  | call1 fn a iha =>
    intro st
    have ha := iha st
    unfold evalExpr
    rcases h : evalExpr funcs a st with ⟨r, st1⟩
    rw [h] at ha
    cases r with
    | error err => exact ha
    | ok va => exact evaluates_trans st st1 _ _ ha (invoke_evaluates funcs fn [va] st1)
  | call2 fn a b iha ihb =>
    intro st
    have ha := iha st
    unfold evalExpr
    rcases h : evalExpr funcs a st with ⟨r, st1⟩
    rw [h] at ha
    cases r with
    | error err => exact ha
    | ok va =>
      simp only
      have hb := ihb st1
      rcases h2 : evalExpr funcs b st1 with ⟨r2, st2⟩
      rw [h2] at hb
      cases r2 with
      | error err => exact evaluates_trans st st1 st2 _ ha hb
      | ok vb =>
        exact evaluates_trans st st1 _ _ ha
          (evaluates_trans st1 st2 _ _ hb (invoke_evaluates funcs fn [va, vb] st2))

theorem execNode_executes (funcs : List (String × Callable)) (n : Node)
    (st : ExecState) :
    executes st (execNode funcs n st).2 (execNode funcs n st).1 := by
  cases n with
  | text s => exact ⟨[.wrote s], rfl, by simp [execNode, written], Or.inl (by simp [Event.isFailure])⟩
  | action e =>
    have he := evalExpr_evaluates funcs e st
    simp only [execNode]
    rcases h : evalExpr funcs e st with ⟨r, st1⟩
    rw [h] at he
    obtain ⟨new, hev, hwr, hsil, hf⟩ := he
    simp only at hev hwr hf
    cases r with
    | error err => exact ⟨new, hev, by simp only; rw [hwr, hsil]; simp, hf⟩
    | ok v =>
      refine ⟨new ++ [.wrote v.print], ?_, ?_, Or.inl ?_⟩
      · simp only; rw [hev, List.append_assoc]
      · simp only; rw [hwr, written_append, hsil]; simp [written]
      · intro ev hev2
        rcases List.mem_append.mp hev2 with h1 | h1
        · exact failsLast_none new hf ev h1
        · simp only [List.mem_singleton] at h1
          rw [h1]; rfl

theorem Execute_executes (funcs : List (String × Callable)) (t : Template) :
    ∀ st, executes st (Execute funcs t st).2 (Execute funcs t st).1 := by
  induction t with
  | nil => intro st; exact ⟨[], by simp [Execute], by simp [Execute, written], Or.inl (by simp)⟩
  | cons n rest ih =>
    intro st
    have hn := execNode_executes funcs n st
    unfold Execute
    rcases h : execNode funcs n st with ⟨r, st1⟩
    rw [h] at hn
    cases r with
    | some err => exact hn
    | none => exact executes_trans st st1 _ _ hn (ih st1)

theorem process_template_executes (newClient : KV × Option LibError) (environ : Environ)
    (t : Template) (pfx out : String) :
    executes { client := newClient.1, wr := out, events := [] }
      (process_template newClient environ t pfx out).2
      (process_template newClient environ t pfx out).1 := by
  unfold process_template
  cases newClient.2 with
  | some e => exact ⟨[], rfl, by simp [written], Or.inl (by simp)⟩
  | none =>
    simp only
    cases Parse (funcMap environ pfx) t with
    | error perr => exact ⟨[], rfl, by simp [written], Or.inl (by simp)⟩
    | ok tmpl => exact Execute_executes _ tmpl _

theorem Execute_literalOnly (funcs : List (String × Callable)) (t : Template)
    (h : literalOnly t = true) (st : ExecState) :
    ∃ evs, Execute funcs t st =
        (none, { client := st.client, wr := st.wr ++ literalText t,
                 events := st.events ++ evs }) ∧
      ∀ ev ∈ evs, ∃ s, ev = Event.wrote s := by
  induction t generalizing st with
  | nil => exact ⟨[], by simp [Execute, literalText], by simp⟩
  | cons n rest ih =>
    cases n with
    | text s =>
      simp only [literalOnly] at h
      obtain ⟨evs, hex, hevs⟩ := ih h { st with wr := st.wr ++ s, events := st.events ++ [.wrote s] }
      refine ⟨.wrote s :: evs, ?_, ?_⟩
      · simp only [Execute, execNode, literalText]
        rw [hex]
        simp [String.append_assoc]
      · intro ev hev
        rcases List.mem_cons.mp hev with h1 | h1
        · exact ⟨s, h1⟩
        · exact hevs ev h1
    | action e => simp [literalOnly] at h

theorem Parse_literalOnly (funcs : List (String × Callable)) (t : Template)
    (h : literalOnly t = true) : Parse funcs t = .ok t := by
  have hnil : t.flatMap Node.helpers = [] := by
    induction t with
    | nil => rfl
    | cons n rest ih =>
      cases n with
      | text s =>
        simp only [literalOnly] at h
        simp [List.flatMap_cons, Node.helpers, ih h]
      | action e => simp [literalOnly] at h
  simp [Parse, hnil]

theorem Execute_append_failure (funcs : List (String × Callable))
    (pre post : Template) (e : Expr) (st st1 st2 : ExecState) (err : GoError)
    (hpre : Execute funcs pre st = (none, st1))
    (hfail : evalExpr funcs e st1 = (.error err, st2)) :
    Execute funcs (pre ++ Node.action e :: post) st = (some err, st2) := by
  induction pre generalizing st with
  | nil =>
    simp only [Execute, Prod.mk.injEq, true_and] at hpre
    subst hpre
    simp [Execute, execNode, hfail]
  | cons n rest ih =>
    simp only [List.cons_append, Execute]
    simp only [Execute] at hpre
    rcases h : execNode funcs n st with ⟨r, st3⟩
    rw [h] at hpre
    cases r with
    | some e2 => simp at hpre
    | none => exact ih st3 hpre

theorem evalExpr_keeps_wr (funcs : List (String × Callable)) (e : Expr)
    (st st2 : ExecState) (r : Except GoError Value)
    (h : evalExpr funcs e st = (r, st2)) : st2.wr = st.wr := by
  obtain ⟨_, _, hwr, _, _⟩ := evalExpr_evaluates funcs e st
  rw [h] at hwr
  exact hwr

/-- C8: when a helper invoked during the execution of a template returns an
error, that invocation is the last thing the execution does: nothing is
written and no helper is invoked after it, `process_template` returns that
error, the destination holds the text it held before with exactly what was
written before the invocation, and no earlier helper had returned an error. -/
theorem render_aborts_at_failing_helper (newClient : KV × Option LibError)
    (environ : Environ) (t : Template) (pfx out : String)
    (before after : List Event) (fn : String) (err : GoError)
    (h : (process_template newClient environ t pfx out).2.events =
      before ++ Event.invoked fn (some err) :: after) :
    after = [] ∧
    (process_template newClient environ t pfx out).1 = some err ∧
    (process_template newClient environ t pfx out).2.wr = out ++ written before ∧
    (∀ ev ∈ before, ev.isFailure = false) := by
  obtain ⟨new, hev, hwr, hf⟩ := process_template_executes newClient environ t pfx out
  simp only [List.nil_append] at hev
  rw [hev] at h
  obtain ⟨hafter, hr, hclean⟩ := failsLast_split _ new before after fn err hf h
  refine ⟨hafter, hr, ?_, hclean⟩
  rw [hwr, h, hafter, written_append]
  simp [written]

/-- C8 at the template `a{{cv "missing"}}b{{env "FOO"}}` with no entry at
`app/missing`: `a` is written, `cv` returns the not-found error, the run ends
with that error, `b` is not written and `env` is not invoked. -/
theorem render_aborts_at_failing_helper_witness :
    (process_template (exampleStore, none) exampleEnviron failingTemplate "app/" "").2.events =
      [Event.wrote "a"] ++
        Event.invoked "cv" (some (.errorf "Key app/missing not found in Consul")) :: [] ∧
    (process_template (exampleStore, none) exampleEnviron failingTemplate "app/" "").1 =
      some (.errorf "Key app/missing not found in Consul") ∧
    (process_template (exampleStore, none) exampleEnviron failingTemplate "app/" "").2.wr =
      "" ++ written [Event.wrote "a"] :=
  have h := render_aborts_at_failing_helper (exampleStore, none) exampleEnviron
    failingTemplate "app/" "" [Event.wrote "a"] [] "cv"
    (.errorf "Key app/missing not found in Consul") (by decide)
  ⟨by decide, h.2.1, h.2.2.1⟩

/-! ## The whole run -/

/-- C9 fails as stated: on the template `a{{cv "missing"}}b{{env "FOO"}}` with
no entry at `app/missing` the run ends in `log.Fatalf` and `a` has been written
to standard output. -/
theorem main_writes_before_failure :
    (main exampleFiles (exampleStore, none) exampleEnviron "app/" ["t.tmpl"]).1 ≠ none ∧
    (main exampleFiles (exampleStore, none) exampleEnviron "app/" ["t.tmpl"]).2 = "a" ∧
    (main exampleFiles (exampleStore, none) exampleEnviron "app/" ["t.tmpl"]).2 ≠ "" := by
  decide

/-- C9 as amended: a run that fails on the argument count, on reading the
file, on constructing the client or on parsing the template has written nothing
to standard output. A run that reaches the execution of the template has on
standard output, at its end, exactly the text the execution wrote piece by
piece, whether it succeeds or fails: when the pieces before a placeholder
execute and the placeholder then fails, the run fails with the placeholder's
error and standard output holds what those pieces wrote, which for literal
pieces is their text. -/
theorem main_stdout_on_failure (files : String → FileOutcome)
    (newClient : KV × Option LibError) (environ : Environ) (pfx : String)
    (args : List String) :
    (args.length ≠ 1 →
      (main files newClient environ pfx args).1 ≠ none ∧
      (main files newClient environ pfx args).2 = "") ∧
    (∀ path, args = [path] → (slurp files path).2 ≠ none →
      (main files newClient environ pfx args).1 ≠ none ∧
      (main files newClient environ pfx args).2 = "") ∧
    (∀ path t, args = [path] → slurp files path = (some t, none) → newClient.2 ≠ none →
      (main files newClient environ pfx args).1 ≠ none ∧
      (main files newClient environ pfx args).2 = "") ∧
    (∀ path t perr, args = [path] → slurp files path = (some t, none) →
      Parse (funcMap environ pfx) t = .error perr →
      (main files newClient environ pfx args).1 ≠ none ∧
      (main files newClient environ pfx args).2 = "") ∧
    (∀ path t, args = [path] → slurp files path = (some t, none) → newClient.2 = none →
      Parse (funcMap environ pfx) t = .ok t →
      ((main files newClient environ pfx args).1 ≠ none ↔
        (Execute (funcMap environ pfx) t
          { client := newClient.1, wr := "", events := [] }).1 ≠ none) ∧
      (main files newClient environ pfx args).2 =
        (Execute (funcMap environ pfx) t
          { client := newClient.1, wr := "", events := [] }).2.wr ∧
      (main files newClient environ pfx args).2 =
        written (Execute (funcMap environ pfx) t
          { client := newClient.1, wr := "", events := [] }).2.events) ∧
    (∀ path pre e post st1 st2 err, args = [path] →
      slurp files path = (some (pre ++ Node.action e :: post), none) →
      newClient.2 = none →
      Parse (funcMap environ pfx) (pre ++ Node.action e :: post) =
        .ok (pre ++ Node.action e :: post) →
      Execute (funcMap environ pfx) pre
        { client := newClient.1, wr := "", events := [] } = (none, st1) →
      evalExpr (funcMap environ pfx) e st1 = (.error err, st2) →
      (main files newClient environ pfx args).1 =
        some (Sprintf "Error processing template %s: %v" [.str path, .err err]) ∧
      (main files newClient environ pfx args).2 = st1.wr ∧
      (main files newClient environ pfx args).2 = written st1.events) ∧
    (∀ path pre e post, args = [path] →
      slurp files path = (some (pre ++ Node.action e :: post), none) →
      newClient.2 = none →
      Parse (funcMap environ pfx) (pre ++ Node.action e :: post) =
        .ok (pre ++ Node.action e :: post) →
      literalOnly pre = true →
      errOf (evalExpr (funcMap environ pfx) e
        (Execute (funcMap environ pfx) pre
          { client := newClient.1, wr := "", events := [] }).2).1 ≠ none →
      (main files newClient environ pfx args).1 ≠ none ∧
      (main files newClient environ pfx args).2 = literalText pre) := by
  have hrun : ∀ path pre e post st1 st2 err, args = [path] →
      slurp files path = (some (pre ++ Node.action e :: post), none) →
      newClient.2 = none →
      Parse (funcMap environ pfx) (pre ++ Node.action e :: post) =
        .ok (pre ++ Node.action e :: post) →
      Execute (funcMap environ pfx) pre
        { client := newClient.1, wr := "", events := [] } = (none, st1) →
      evalExpr (funcMap environ pfx) e st1 = (.error err, st2) →
      (main files newClient environ pfx args).1 =
        some (Sprintf "Error processing template %s: %v" [.str path, .err err]) ∧
      (main files newClient environ pfx args).2 = st1.wr := by
    intro path pre e post st1 st2 err hargs hslurp hc hparse hpre hfail
    subst hargs
    have hex := Execute_append_failure (funcMap environ pfx) pre post e _ st1 st2 err hpre hfail
    have hwr := evalExpr_keeps_wr (funcMap environ pfx) e st1 st2 _ hfail
    simp [main, hslurp, process_template, hc, hparse, hex, hwr]
  refine ⟨?_, ?_, ?_, ?_, ?_, ?_, ?_⟩
  · intro hlen
    match args, hlen with
    | [], _ => simp [main]
    | [a], h => simp at h
    | _ :: _ :: _, _ => simp [main]
  · intro path hargs hslurp
    subst hargs
    rcases hs : slurp files path with ⟨c, err⟩
    rw [hs] at hslurp
    cases err with
    | none => simp at hslurp
    | some e => simp [main, hs]
  · intro path t hargs hslurp hnc
    subst hargs
    cases hc : newClient.2 with
    | none => exact absurd hc hnc
    | some e => simp [main, hslurp, process_template, hc]
  · intro path t perr hargs hslurp hparse
    subst hargs
    cases hc : newClient.2 with
    | none => simp [main, hslurp, process_template, hc, hparse]
    | some e => simp [main, hslurp, process_template, hc]
  · intro path t hargs hslurp hc hparse
    subst hargs
    obtain ⟨new, hev, hwr, _⟩ := Execute_executes (funcMap environ pfx) t
      { client := newClient.1, wr := "", events := [] }
    simp only [List.nil_append] at hev
    have hwr2 : (Execute (funcMap environ pfx) t
        { client := newClient.1, wr := "", events := [] }).2.wr = written new := by
      rw [hwr]
      apply String.ext
      simp
    rw [hev, ← hwr2]
    simp only [main, hslurp, process_template, hc, hparse]
    rcases Execute (funcMap environ pfx) t
      { client := newClient.1, wr := "", events := [] } with ⟨r, st⟩
    cases r <;> simp
  · intro path pre e post st1 st2 err hargs hslurp hc hparse hpre hfail
    obtain ⟨h1, h2⟩ := hrun path pre e post st1 st2 err hargs hslurp hc hparse hpre hfail
    refine ⟨h1, h2, ?_⟩
    obtain ⟨new, hev, hwr, _⟩ := Execute_executes (funcMap environ pfx) pre
      { client := newClient.1, wr := "", events := [] }
    rw [hpre] at hev hwr
    simp only [List.nil_append] at hev
    rw [h2, hwr, hev]
    apply String.ext
    simp
  · intro path pre e post hargs hslurp hc hparse hlit hfail
    obtain ⟨evs, hpre, _⟩ := Execute_literalOnly (funcMap environ pfx) pre hlit
      { client := newClient.1, wr := "", events := [] }
    rw [hpre] at hfail
    rcases hev : evalExpr (funcMap environ pfx) e
      { client := newClient.1, wr := "" ++ literalText pre, events := [] ++ evs } with ⟨r, st2⟩
    rw [hev] at hfail
    cases r with
    | ok v => simp [errOf] at hfail
    | error err =>
      obtain ⟨h1, h2⟩ := hrun path pre e post _ st2 err hargs hslurp hc hparse hpre hev
      refine ⟨by rw [h1]; simp, ?_⟩
      rw [h2]
      apply String.ext
      simp

/-- C9 as amended, at the template `a{{cv "missing"}}b{{env "FOO"}}` with no
entry at `app/missing`: the literal piece `a` executes, the placeholder
`cv "missing"` fails, the run fails and standard output holds `a`. -/
theorem main_stdout_on_failure_witness :
    (main exampleFiles (exampleStore, none) exampleEnviron "app/" ["t.tmpl"]).1 ≠ none ∧
    (main exampleFiles (exampleStore, none) exampleEnviron "app/" ["t.tmpl"]).2 =
      literalText [Node.text "a"] :=
  (main_stdout_on_failure exampleFiles (exampleStore, none) exampleEnviron "app/"
    ["t.tmpl"]).2.2.2.2.2.2 "t.tmpl" [Node.text "a"] (.call1 "cv" (.lit "missing"))
    [Node.text "b", Node.action (.call1 "env" (.lit "FOO"))] rfl rfl rfl rfl rfl (by decide)

/-- C10 fails as stated: the template `{{.name}}` invokes no helper, and its
rendering fails, the data object being empty. -/
theorem field_reference_fails_without_helper :
    ([Node.action (.field "name")].flatMap Node.helpers = []) ∧
    (process_template (exampleStore, none) exampleEnviron
        [Node.action (.field "name")] "app/" "").1 =
      some (.template "map has no entry for key \"name\"") ∧
    (process_template (exampleStore, none) exampleEnviron
        [Node.action (.field "name")] "app/" "").2.events = [] := by
  decide

/-- C10 as amended: for a template that is literal text only, once the client
is constructed, `process_template` succeeds, appends the template's text
unchanged to standard output, sends the store no request and invokes no
helper. -/
theorem literal_template_renders_verbatim (newClient : KV × Option LibError)
    (environ : Environ) (pfx out : String) (t : Template)
    (hclient : newClient.2 = none) (hlit : literalOnly t = true) :
    (process_template newClient environ t pfx out).1 = none ∧
    (process_template newClient environ t pfx out).2.wr = out ++ literalText t ∧
    (process_template newClient environ t pfx out).2.client.requests =
      newClient.1.requests ∧
    (∀ ev ∈ (process_template newClient environ t pfx out).2.events,
      ∃ s, ev = Event.wrote s) := by
  obtain ⟨evs, hex, hevs⟩ := Execute_literalOnly (funcMap environ pfx) t hlit
    { client := newClient.1, wr := out, events := [] }
  have hp : process_template newClient environ t pfx out =
      (none, { client := newClient.1, wr := out ++ literalText t, events := [] ++ evs }) := by
    simp only [process_template, hclient, Parse_literalOnly _ t hlit, hex]
  rw [hp]
  exact ⟨rfl, rfl, rfl, by simpa using hevs⟩

/-- C10 as amended, at the template `port = 80` followed by a line break. -/
theorem literal_template_renders_verbatim_witness :
    (process_template (exampleStore, none) exampleEnviron
        [Node.text "port = 80", Node.text "\n"] "app/" "").1 = none ∧
    (process_template (exampleStore, none) exampleEnviron
        [Node.text "port = 80", Node.text "\n"] "app/" "").2.wr = "port = 80\n" :=
  have h := literal_template_renders_verbatim (exampleStore, none) exampleEnviron "app/" ""
    [Node.text "port = 80", Node.text "\n"] rfl rfl
  ⟨h.1, h.2.1⟩

end ConsulSimpleTemplate
